import Mathlib

/-!
Verification of the configuration-graph extraction and snapshot-diff core of
MHC_Config_Visualization (src/Nodes.py, src/Compare.py).

The Python code is shallowly embedded: JSON documents become the `Json`
inductive (numeric leaves are modelled as integers; the snapshots' documents
are parsed JSON, where numbers play no role in any of the verified
properties), Python dicts become association lists (Python dicts cannot hold
duplicate keys; where a proof needs this, it is an explicit hypothesis),
and fallible Python code (KeyError / IndexError / TypeError) returns
`Except PyErr`.
-/

set_option maxRecDepth 4000

namespace MHC

/-- JSON-shaped values as parsed by `json.load`.  Python tuples never occur in
parsed JSON, so the tuple branch of `_truncate_depth` is unreachable and has no
counterpart here. -/
inductive Json where
  | null
  | bool (b : Bool)
  | num (n : Int)
  | str (s : String)
  | arr (xs : List Json)
  | obj (fs : List (String × Json))

mutual
/-- Structural equality on JSON values (Python `==` on parsed JSON). -/
def jsonBeq : Json → Json → Bool
  | .null, .null => true
  | .bool a, .bool b => a == b
  | .num a, .num b => a == b
  | .str a, .str b => a == b
  | .arr xs, .arr ys => jsonBeqList xs ys
  | .obj fs, .obj gs => jsonBeqFields fs gs
  | _, _ => false

def jsonBeqList : List Json → List Json → Bool
  | [], [] => true
  | x :: xs, y :: ys => jsonBeq x y && jsonBeqList xs ys
  | _, _ => false

def jsonBeqFields : List (String × Json) → List (String × Json) → Bool
  | [], [] => true
  | (k, v) :: fs, (l, w) :: gs => k == l && jsonBeq v w && jsonBeqFields fs gs
  | _, _ => false
end

instance : BEq Json := ⟨jsonBeq⟩

/-- Python exceptions raised by the embedded code. -/
inductive PyErr where
  | keyError (k : String)
  | indexError
  | typeError
  | attributeError
deriving Repr, DecidableEq

/-- First-match association-list lookup (Python dict access; Python dicts hold
no duplicate keys, so first-match is exact). -/
def dictGet {α : Type} : List (String × α) → String → Option α
  | [], _ => Option.none
  | (k, v) :: rest, key => if k = key then some v else dictGet rest key

/-- Python `obj[key]`: `KeyError` on a dict without the key, `TypeError` on a
non-dict. -/
def pyIndex (j : Json) (k : String) : Except PyErr Json :=
  match j with
  | .obj fs =>
    match dictGet fs k with
    | some v => .ok v
    | Option.none => .error (.keyError k)
  | _ => .error .typeError

/-- Python `key in obj`: key test on dicts, membership on lists, substring on
strings, `TypeError` otherwise. -/
def pyHasKey (j : Json) (k : String) : Except PyErr Bool :=
  match j with
  | .obj fs => .ok (fs.any (fun p => p.1 == k))
  | .arr xs => .ok (xs.contains (Json.str k))
  | .str _ => .error .typeError
  | _ => .error .typeError

/-- Python truthiness of a JSON value (`None`, `False`, `0`, `""`, `[]`, `{}`
are falsy). -/
def pyTruthy (j : Json) : Bool :=
  match j with
  | .null => false
  | .bool b => b
  | .num n => n != 0
  | .str s => s != ""
  | .arr xs => !xs.isEmpty
  | .obj fs => !fs.isEmpty

/-- Characters stripped by Python's `str.strip()` (ASCII whitespace). -/
def isPyWs (c : Char) : Bool :=
  c == ' ' || c == '\t' || c == '\n' || c == '\x0d' || c == '\x0b' || c == '\x0c'

/-- Python `str.strip()`. -/
def pyStrip (s : String) : String :=
  String.mk (((s.toList.dropWhile isPyWs).reverse.dropWhile isPyWs).reverse)

/-- `needle.isPrefixOf`-based substring test: Python's `needle in hay`. -/
def containsAux (hay needle : List Char) : Bool :=
  match hay with
  | [] => needle.isEmpty
  | _ :: t => needle.isPrefixOf hay || containsAux t needle

/-- Python `needle in hay` on strings. -/
def strContains (hay needle : String) : Bool :=
  containsAux hay.toList needle.toList

/-- Python `xs[i]` on a list: `IndexError` when out of range. -/
def pyAt {α : Type} (xs : List α) (i : Nat) : Except PyErr α :=
  match xs.drop i with
  | x :: _ => .ok x
  | [] => .error .indexError

/-- Python `s[n:]`. -/
def strDrop (s : String) (n : Nat) : String := String.mk (s.toList.drop n)

/-- Python `s[:-n]` for positive `n` (the only way the sources use it). -/
def strDropRight (s : String) (n : Nat) : String :=
  String.mk (s.toList.take (s.toList.length - n))

/-- Python `s.startswith(pre)`. -/
def strStartsWith (s pre : String) : Bool := pre.toList.isPrefixOf s.toList

/-- Python `s.endswith(suf)`. -/
def strEndsWith (s suf : String) : Bool := suf.toList.isSuffixOf s.toList

/-- Fuel-bounded worker for `pySplit`; fuel = input length + 1 always
suffices for a nonempty separator. -/
def pySplitAux (sep : List Char) : Nat → List Char → List Char → List String
  | 0, cur, rest => [String.mk (cur.reverse ++ rest)]
  | _ + 1, cur, [] => [String.mk cur.reverse]
  | fuel + 1, cur, c :: cs =>
    if sep.isPrefixOf (c :: cs) then
      String.mk cur.reverse :: pySplitAux sep fuel [] ((c :: cs).drop sep.length)
    else pySplitAux sep fuel (c :: cur) cs

/-- Python `s.split(sep)` for a nonempty separator (the sources only split on
`"["`, `":"` and `"\n"`). -/
def pySplit (s sep : String) : List String :=
  pySplitAux sep.toList (s.toList.length + 1) [] s.toList

/-- Fuel-bounded worker for `pyReplace`. -/
def pyReplaceAux (old new : List Char) : Nat → List Char → List Char
  | 0, rest => rest
  | _ + 1, [] => []
  | fuel + 1, c :: cs =>
    if old.isPrefixOf (c :: cs) then
      new ++ pyReplaceAux old new fuel ((c :: cs).drop old.length)
    else c :: pyReplaceAux old new fuel cs

/-- Python `s.replace(old, new)` for a nonempty pattern (the sources only
replace `"ClientProgram:"`). -/
def pyReplace (s old new : String) : String :=
  String.mk (pyReplaceAux old.toList new.toList (s.toList.length + 1) s.toList)

/-- Nodes.classify_item_type: map a reference-key string to its class by
sequential substring checks; `none` for unrecognized prefixes and for a
RuleSet key whose text contains `None`. -/
def classify_item_type (name : String) : Option String :=
  if strContains name "<<MessageConfig:" then some "MessageConfig"
  else if strContains name "<<ClientTopic:" then some "ClientTopic"
  else if strContains name "<<StandaloneFormula:" then some "StandaloneFormula"
  else if strContains name "<<ClientPageLayout:" then some "ClientPageLayout"
  else if strContains name "<<MessageCategory:" then some "MessageCategory"
  else if strContains name "<<CustomFieldDef:" then some "CustomFieldDef"
  else if strContains name "<<Incentive:" then some "Incentive"
  else if strContains name "<<Rule:" then some "Rule"
  else if strContains name "<<ClientRaffle:" then some "ClientRaffle"
  else if strContains name "<<ClientReward:" then some "ClientReward"
  else if strContains name "<<ClientProgram" then some "ClientProgram"
  else if strContains name "<<ClientTaskHandlerDefinition:" then some "ClientTaskHandlerDefinition"
  else if strContains name "<<RuleSet:" then
    if !(strContains name "None") then some "RuleSet" else Option.none
  else Option.none

/-- Python `repr` of a string: quote choice as in CPython (single quotes unless
the text holds a single quote and no double quote), with the common escapes;
rare control characters are kept verbatim, which no verified property
observes. -/
def pyReprStr (s : String) : String :=
  let q : Char := if s.toList.contains '\'' && !(s.toList.contains '"') then '"' else '\''
  let body := s.toList.foldl (fun acc c =>
    if c == '\\' then acc ++ "\\\\"
    else if c == q then acc ++ "\\" ++ String.mk [q]
    else if c == '\n' then acc ++ "\\n"
    else if c == '\x0d' then acc ++ "\\r"
    else if c == '\t' then acc ++ "\\t"
    else acc ++ String.mk [c]) ""
  String.mk [q] ++ body ++ String.mk [q]

mutual
/-- Python `str(...)` on a parsed-JSON value (`str` of a dict/list uses `repr`
of the elements), as produced by `str(item)` in Nodes.find_nodes. -/
def pyRepr : Json → String
  | .null => "None"
  | .bool true => "True"
  | .bool false => "False"
  | .num n => toString n
  | .str s => pyReprStr s
  | .arr xs => "[" ++ String.intercalate ", " (pyReprList xs) ++ "]"
  | .obj fs => "\x7b" ++ String.intercalate ", " (pyReprFields fs) ++ "\x7d"

def pyReprList : List Json → List String
  | [] => []
  | x :: xs => pyRepr x :: pyReprList xs

def pyReprFields : List (String × Json) → List String
  | [] => []
  | (k, v) :: fs => (pyReprStr k ++ ": " ++ pyRepr v) :: pyReprFields fs
end

/-- One attempted match of the regex `<<(?:[^>]+)>>` at the current position:
literal `<<`, a maximal nonempty run of non-`>` characters, then `>>`.
Returns the matched characters and the remainder after the match. -/
def tryMatchRef (l : List Char) : Option (List Char × List Char) :=
  match l with
  | '<' :: '<' :: rest =>
    let run := rest.takeWhile (fun c => c != '>')
    if run.isEmpty then Option.none
    else
      match rest.drop run.length with
      | '>' :: '>' :: rest' => some ('<' :: '<' :: (run ++ ['>', '>']), rest')
      | _ => Option.none
  | _ => Option.none

/-- `re.finditer` scan for `<<(?:[^>]+)>>`: left to right, resuming after each
match; `fuel` bounds the recursion (each step consumes at least one
character, so fuel = input length suffices). -/
def scanRefs : Nat → List Char → List String
  | 0, _ => []
  | _ + 1, [] => []
  | fuel + 1, c :: cs =>
    match tryMatchRef (c :: cs) with
    | some (m, rest) => String.mk m :: scanRefs fuel rest
    | Option.none => scanRefs fuel cs

/-- One regex match processed by the loop in Nodes.get_references: stripped,
then appended when new and of recognized class. -/
def ref_step (references : List String) (m : String) : List String :=
  let reference := pyStrip m
  if reference != "" && !(references.contains reference) then
    if (classify_item_type reference).isSome then references ++ [reference]
    else references
  else references

/-- Nodes.get_references: scan the item's string form for bracketed reference
keys, keeping only keys that classify to a recognized class, deduplicated in
first-seen order. -/
def get_references (s : String) : List String :=
  (scanRefs s.toList.length s.toList).foldl ref_step []

/-- Class-specific content payloads returned by Nodes.get_content (the Python
code returns tuples / a string / `None`). -/
inductive Content where
  | none
  | msg (body subject notificationText : Json)
  | inc (name info : Json)
  | cfd (fieldType fieldDataType defaultValue : Json)
  | layout (text : String)

/-- Inner loop of the ClientPageLayout branch of Nodes.get_content: concatenate
every non-blank, non-null HTMLContent with a trailing newline. -/
def layoutFold (sections : List Json) : Except PyErr String :=
  sections.foldlM (fun (content : String) sec => do
    let h ← pyHasKey sec "HTMLContent"
    if h then do
      let html_content ← pyIndex sec "HTMLContent"
      match html_content with
      | .null => pure content
      | .str s => if pyStrip s != "" then pure (content ++ s ++ "\n") else pure content
      | _ => .error .attributeError
    else pure content) ""

/-- Nodes.get_content: extract the per-class payload; field accesses use plain
indexing, so an absent field raises. -/
def get_content (json_obj : Json) (node_type : Option String) (string : String) :
    Except PyErr Content :=
  if node_type = some "MessageConfig" then do
    let msg ← pyIndex json_obj "message"
    let body ← pyIndex msg "body"
    let msg2 ← pyIndex json_obj "message"
    let subject ← pyIndex msg2 "subject"
    let msg3 ← pyIndex json_obj "message"
    let notif ← pyIndex msg3 "notificationText"
    pure (.msg body subject notif)
  else if node_type = some "Incentive" then do
    let nm ← pyIndex json_obj "name"
    let info ← pyIndex json_obj "info"
    pure (.inc nm info)
  else if node_type = some "CustomFieldDef" then do
    let dv ← pyIndex json_obj "defaultValue"
    let default_value :=
      if strContains string "_dummy__formula" && dv == Json.null then
        Json.str "Calculated Using Formula"
      else dv
    let ft ← pyIndex json_obj "fieldType"
    let fdt ← pyIndex json_obj "fieldDataType"
    pure (.cfd ft fdt default_value)
  else if node_type = some "ClientPageLayout" then do
    let b ← pyHasKey json_obj "pageLayoutElements"
    if b then do
      let elems ← pyIndex json_obj "pageLayoutElements"
      match elems with
      | .arr sections => do
        let content ← layoutFold sections
        pure (.layout content)
      | _ => .error .typeError
    else pure .none
  else pure .none

/-- A node record as built by Nodes.find_nodes / Nodes.create_secondary_nodes.
The Python dicts never receive a `json` key anywhere in the sources, so
`.get('json')` in Compare.py always yields `None`; the field is kept to model
that access. -/
structure Node where
  name : String
  display_name : String
  nodeClass : Option String
  program : String
  content : Content
  connections : List String
  order : String
  query : String
  json : Option String
  raw : Option Json

/-- Per-item body of the loop in Nodes.find_nodes: `some node` when the item
yields a node, `none` when it is skipped, `.error` when the Python code would
raise. -/
def processItem (item : Json) : Except PyErr (Option Node) :=
  match item with
  | .obj fs =>
    match dictGet fs "__reference_comparison_key" with
    | Option.none => .ok Option.none
    | some v =>
      if !(pyTruthy v) then .ok Option.none
      else
        match v with
        | .str node_name =>
          (match pyAt (pySplit (pyStrip ((pySplit (strDrop node_name 2) "[").headD "")) ":") 1 with
           | .error e => .error e
           | .ok dn =>
             let display_name := pyStrip dn
             let node_type := classify_item_type node_name
             match pyAt (pySplit node_name "[") 1 with
             | .error e => .error e
             | .ok progSeg =>
               let program := pyReplace (strDropRight (pyStrip progSeg) 3) "ClientProgram:" ""
               let item_string := pyRepr item
               match get_content item node_type item_string with
               | .error e => .error e
               | .ok content =>
                 let refs := get_references item_string
                 let connections := refs.filter (fun r => r != node_name)
                 let query := if strContains item_string "qry" then "True" else "False"
                 let node : Node :=
                   { name := node_name, display_name := display_name,
                     nodeClass := node_type, program := program, content := content,
                     connections := connections, order := "primary", query := query,
                     json := Option.none, raw := some item }
                 if node_type.isSome then .ok (some node) else .ok Option.none)
        | _ => .error .typeError
  | _ => .ok Option.none

/-- Document normalization in Nodes.find_nodes: a list document is used as is;
otherwise every dict item carrying the reference marker is collected from the
`_children` buckets. -/
def flattenDoc (json_code : Json) : Except PyErr (List Json) :=
  match json_code with
  | .arr xs => .ok xs
  | _ =>
    match pyIndex json_code "_children" with
    | .error e => .error e
    | .ok ch =>
      match ch with
      | .obj cats =>
        .ok (cats.foldl (fun acc kv =>
          match kv.2 with
          | .arr items => acc ++ items.filter (fun it =>
              match it with
              | .obj gs => (dictGet gs "__reference_comparison_key").isSome
              | _ => false)
          | _ => acc) [])
      | _ => .error .typeError

/-- Appending one item's node (if any) to the running node list in
Nodes.find_nodes. -/
def item_step (acc : List Node) (it : Json) : Except PyErr (List Node) :=
  match processItem it with
  | .error e => .error e
  | .ok (some n) => .ok (acc ++ [n])
  | .ok Option.none => .ok acc

/-- Processing one document in Nodes.find_nodes: flatten, then fold the
items. -/
def file_step (nodes : List Node) (doc : Json) : Except PyErr (List Node) :=
  match flattenDoc doc with
  | .error e => .error e
  | .ok items => items.foldlM item_step nodes

/-- Nodes.find_nodes over already-parsed documents (file reading and JSON
parsing happen before the logic modelled here). -/
def find_nodes (files : List Json) : Except PyErr (List Node) :=
  files.foldlM file_step []

/-- The eligibility test a connection key must pass before
Nodes.create_secondary_nodes synthesizes a node for it. -/
def closure_eligible (c : String) : Bool :=
  strStartsWith c "<<" && strEndsWith c ">>" && strContains c ":"

/-- Construction of one secondary node in Nodes.create_secondary_nodes
(the two dict literals); position lookups past the end raise `IndexError`
exactly where the Python `split(...)[1]` would. -/
def synth_node (connection : String) : Except PyErr Node :=
  if classify_item_type connection = some "ClientProgram" then
    match pyAt (pySplit connection ":") 1 with
    | .error e => .error e
    | .ok seg =>
      let dn := strDropRight (pyStrip seg) 2
      .ok { name := connection, display_name := dn,
            nodeClass := classify_item_type connection, program := dn,
            content := .none, connections := [], order := "secondary",
            query := "False", json := Option.none, raw := Option.none }
  else
    match pyAt (pySplit (pyStrip ((pySplit (strDrop connection 2) "[").headD "")) ":") 1 with
    | .error e => .error e
    | .ok dn =>
      let display_name := pyStrip dn
      match pyAt (pySplit connection "[") 1 with
      | .error e => .error e
      | .ok progSeg =>
        let program := pyReplace (strDropRight (pyStrip progSeg) 3) "ClientProgram:" ""
        .ok { name := connection, display_name := display_name,
              nodeClass := classify_item_type connection, program := program,
              content := .none, connections := [], order := "secondary",
              query := "False", json := Option.none, raw := Option.none }

/-- One connection processed by Nodes.create_secondary_nodes: state is the
running seen-name set and the growing node list; the connection is stripped,
recorded as seen before the eligibility test (as in the source), and a
secondary node is appended when it is eligible and classifies. -/
def closure_step (st : List String × List Node) (connection : String) :
    Except PyErr (List String × List Node) :=
  let c := pyStrip connection
  if st.1.contains c then .ok st
  else
    let seen := st.1 ++ [c]
    if closure_eligible c then
      match synth_node c with
      | .error e => .error e
      | .ok new_node =>
        if new_node.nodeClass.isSome then .ok (seen, st.2 ++ [new_node])
        else .ok (seen, st.2)
    else .ok (seen, st.2)

/-- All connections of one node processed by Nodes.create_secondary_nodes. -/
def closure_node_step (st : List String × List Node) (node : Node) :
    Except PyErr (List String × List Node) :=
  node.connections.foldlM closure_step st

/-- Nodes.create_secondary_nodes.  The Python for-loop iterates over
`all_nodes` while appending to it, so it also visits the appended secondary
nodes; those have empty `connections`, so visiting them changes nothing, and
the loop is modelled extensionally as a fold over the input list. -/
def create_secondary_nodes (nodes : List Node) : Except PyErr (List Node) :=
  match nodes.foldlM closure_node_step (nodes.map Node.name, nodes) with
  | .error e => .error e
  | .ok st => .ok st.2

/-- Invariant of the closure pass: every seen name that is eligible and of
recognized class is already the name of some accumulated node. -/
def closure_inv (st : List String × List Node) : Prop :=
  ∀ s ∈ st.1, closure_eligible s = true → (classify_item_type s).isSome = true →
    s ∈ st.2.map Node.name

/-- Compare._classify_diff.  `a_node.get('json')` reads the `json` field,
which no code in the repository ever sets; `x or ''` on the optional field is
`Option.getD ""`, and `bool(...)` of it is the `!= ""` test. -/
def classify_diff (a_node b_node : Option Node) : String :=
  match a_node, b_node with
  | Option.none, _ => "distinct"
  | some _, Option.none => "distinct"
  | some a, some b =>
    let a_primary := (a.order == "primary") && (a.json.getD "" != "")
    let b_primary := (b.order == "primary") && (b.json.getD "" != "")
    if a_primary != b_primary then "changed"
    else
      let a_json := a.json.getD ""
      let b_json := b.json.getD ""
      if a_json == b_json then "same" else "changed"

/-- The placeholder Compare._truncate_depth substitutes past the depth
limit. -/
def depthLimitPlaceholder : String := "<… depth limit …>"

/-- Codepoint-lexicographic comparison of character lists (the order Python
`sorted` uses on strings). -/
def strLeListAux : List Char → List Char → Bool
  | [], _ => true
  | _ :: _, [] => false
  | a :: as_, b :: bs =>
    if a.toNat < b.toNat then true
    else if b.toNat < a.toNat then false
    else strLeListAux as_ bs

/-- Codepoint-lexicographic `≤` on strings. -/
def strLeb (a b : String) : Bool := strLeListAux a.toList b.toList

/-- Ordering of object fields by key, as `sorted(val.keys())` orders the
keys. -/
def keyLe (p q : String × Json) : Prop := strLeb p.1 q.1 = true

instance : DecidableRel keyLe := fun _ _ => inferInstanceAs (Decidable (_ = true))

mutual
/-- Compare._truncate_depth: recursive copy with object keys sorted and any
value at or beyond the depth limit replaced by the placeholder.  The source
sorts the keys and then recurses through `val[k]`; sorting distinct keys
commutes with mapping over the values (Python dicts hold no duplicate keys),
so it is modelled as recurse-then-sort.  The tuple branch is unreachable for
parsed JSON. -/
def truncate_depth (val : Json) (depth max_depth : Nat) : Json :=
  if depth ≥ max_depth then Json.str depthLimitPlaceholder
  else
    match val with
    | .obj fs => .obj (List.insertionSort keyLe (truncFields fs (depth + 1) max_depth))
    | .arr xs => .arr (truncItems xs (depth + 1) max_depth)
    | v => v

def truncFields : List (String × Json) → Nat → Nat → List (String × Json)
  | [], _, _ => []
  | (k, v) :: fs, d, m => (k, truncate_depth v d m) :: truncFields fs d m

def truncItems : List Json → Nat → Nat → List Json
  | [], _, _ => []
  | x :: xs, d, m => truncate_depth x d m :: truncItems xs d m
end

/-- Lowercase-hex `\uXXXX` escape used by `json.dumps` with the default
`ensure_ascii=True`. -/
def uEscape (n : Nat) : String :=
  "\\u" ++ String.mk [Nat.digitChar (n / 4096 % 16), Nat.digitChar (n / 256 % 16),
    Nat.digitChar (n / 16 % 16), Nat.digitChar (n % 16)]

/-- JSON string quoting as `json.dumps` performs it (`ensure_ascii=True`
escapes every character outside printable ASCII; characters beyond the basic
multilingual plane would use surrogate pairs, which never occur in these
snapshots and are not modelled). -/
def jsonQuote (s : String) : String :=
  "\"" ++ s.toList.foldl (fun acc c =>
    if c == '"' then acc ++ "\\\""
    else if c == '\\' then acc ++ "\\\\"
    else if c == '\n' then acc ++ "\\n"
    else if c == '\t' then acc ++ "\\t"
    else if c == '\x0d' then acc ++ "\\r"
    else if c == '\x08' then acc ++ "\\b"
    else if c == '\x0c' then acc ++ "\\f"
    else if c.toNat < 32 || c.toNat > 126 then acc ++ uEscape c.toNat
    else acc ++ String.mk [c]) "" ++ "\""

/-- Indentation produced by `json.dumps(..., indent=2)` at a nesting level. -/
def indentStr (level : Nat) : String := String.mk (List.replicate (2 * level) ' ')

mutual
/-- `json.dumps(..., indent=2, sort_keys=True)` on a truncated value.
`sort_keys` re-sorts object keys, but `truncate_depth` has already sorted
every object it rebuilds, so the re-sort is the identity and is omitted. -/
def json_dumps (val : Json) (level : Nat) : String :=
  match val with
  | .null => "null"
  | .bool true => "true"
  | .bool false => "false"
  | .num n => toString n
  | .str s => jsonQuote s
  | .arr [] => "[]"
  | .arr xs =>
    "[\n" ++ String.intercalate ",\n" (dumpsItems xs (level + 1)) ++ "\n" ++
      indentStr level ++ "]"
  | .obj [] => "\x7b\x7d"
  | .obj fs =>
    "\x7b\n" ++ String.intercalate ",\n" (dumpsFields fs (level + 1)) ++ "\n" ++
      indentStr level ++ "\x7d"

def dumpsItems : List Json → Nat → List String
  | [], _ => []
  | x :: xs, lvl => (indentStr lvl ++ json_dumps x lvl) :: dumpsItems xs lvl

def dumpsFields : List (String × Json) → Nat → List String
  | [], _ => []
  | (k, v) :: fs, lvl =>
    (indentStr lvl ++ jsonQuote k ++ ": " ++ json_dumps v lvl) :: dumpsFields fs lvl
end

/-- Canonical text of a raw document (§4.5 of the spec): depth-truncated,
key-sorted serialization. -/
def canonical_text (raw : Json) : String := json_dumps (truncate_depth raw 0 10) 0

/-- Compare._node_json_pretty: canonical text of the node's raw document;
falsy node yields `""`; without a raw document it falls back to the node's
`json` field (`or ''`).  The `try/except` wrapper never fires because the
serializer modelled here is total on `Json`. -/
def node_json_pretty (node : Option Node) (max_depth : Nat) : String :=
  match node with
  | Option.none => ""
  | some n =>
    match n.raw with
    | some raw => json_dumps (truncate_depth raw 0 max_depth) 0
    | Option.none => n.json.getD ""

/-- Compare._leading_spaces. -/
def leading_spaces (s : String) : Nat := (s.toList.takeWhile (fun c => c == ' ')).length

/-- Compare._dedent_block: strip the minimum leading-space count of the
non-empty lines from every line long enough. -/
def dedent_block (block : List String) : List String :=
  let non_empty := block.filter (fun ln => pyStrip ln != "")
  match non_empty.map leading_spaces with
  | [] => block
  | x :: xs =>
    let min_indent := xs.foldl Nat.min x
    if min_indent ≤ 0 then block
    else block.map (fun ln => if ln.length ≥ min_indent then strDrop ln min_indent else ln)

/-- Python `xs[i:j]`. -/
def pySlice {α : Type} (xs : List α) (i j : Nat) : List α := (xs.drop i).take (j - i)

/-- Python `str.splitlines()` (newline-only documents; the canonical texts
diffed here are produced by `json.dumps`, which only emits `\n`). -/
def pySplitlines (s : String) : List String :=
  if s = "" then []
  else
    let parts := pySplit s "\n"
    if parts.getLast? = some "" then parts.dropLast else parts

/-- Opcode tags of `difflib.SequenceMatcher.get_opcodes`. -/
inductive DiffTag where
  | equal
  | replace
  | delete
  | insert
deriving Repr, DecidableEq

/-- One opcode run `(tag, i1, i2, j1, j2)`. -/
structure OpCode where
  tag : DiffTag
  i1 : Nat
  i2 : Nat
  j1 : Nat
  j2 : Nat
deriving Repr, DecidableEq

/-- One opcode run of the row-building loop in Compare._two_column_diff:
texts of the appended left and right column cells (the Dash html.Div styling
carries no information the verified properties observe). -/
def two_column_step (a_lines b_lines : List String)
    (cols : List String × List String) (op : OpCode) : List String × List String :=
  match op.tag with
    | .equal =>
      let left_block := dedent_block (pySlice a_lines op.i1 op.i2)
      let right_block := dedent_block (pySlice b_lines op.j1 op.j2)
      let height := max left_block.length right_block.length
      (cols.1 ++ (List.range height).map (fun idx => left_block.getD idx ""),
       cols.2 ++ (List.range height).map (fun idx => right_block.getD idx ""))
    | .replace =>
      let left_block := dedent_block (pySlice a_lines op.i1 op.i2)
      let right_block := dedent_block (pySlice b_lines op.j1 op.j2)
      let height := max left_block.length right_block.length
      (cols.1 ++ (List.range height).map (fun idx => left_block.getD idx ""),
       cols.2 ++ (List.range height).map (fun idx => right_block.getD idx ""))
    | .delete =>
      let left_block := dedent_block (pySlice a_lines op.i1 op.i2)
      (cols.1 ++ left_block, cols.2 ++ left_block.map (fun _ => ""))
    | .insert =>
      let right_block := dedent_block (pySlice b_lines op.j1 op.j2)
      (cols.1 ++ right_block.map (fun _ => ""), cols.2 ++ right_block)

/-- The row-building loop of Compare._two_column_diff over an opcode list. -/
def two_column_rows (a_lines b_lines : List String) (ops : List OpCode) :
    List String × List String :=
  ops.foldl (two_column_step a_lines b_lines) ([], [])

/-- Length of the longest common prefix of two line sequences. -/
def commonPrefixLen : List String → List String → Nat
  | a :: as_, b :: bs => if a = b then commonPrefixLen as_ bs + 1 else 0
  | _, _ => 0

/-- Modelled from the spec: `difflib.SequenceMatcher.get_opcodes` (Python
standard library, not part of this repository's sources) partitions both line
sequences into equal / replace / delete / insert runs.  Modelled as maximal
common prefix, one middle run, maximal common suffix; the row-balance
property proved below holds for every opcode list whatsoever, so the choice
of matcher does not affect it. -/
def get_opcodes (a b : List String) : List OpCode :=
  let p := commonPrefixLen a b
  let s := commonPrefixLen (a.drop p).reverse (b.drop p).reverse
  let la := a.length
  let lb := b.length
  let pre : List OpCode := if p > 0 then [⟨.equal, 0, p, 0, p⟩] else []
  let mid : List OpCode :=
    if la - s > p && lb - s > p then [⟨.replace, p, la - s, p, lb - s⟩]
    else if la - s > p then [⟨.delete, p, la - s, p, p⟩]
    else if lb - s > p then [⟨.insert, p, p, p, lb - s⟩]
    else []
  let suf : List OpCode := if s > 0 then [⟨.equal, la - s, la, lb - s, lb⟩] else []
  pre ++ mid ++ suf

/-- Compare._two_column_diff end to end (cell texts only). -/
def two_column_diff (a_text b_text : String) : List String × List String :=
  let a_lines := pySplitlines a_text
  let b_lines := pySplitlines b_text
  two_column_rows a_lines b_lines (get_opcodes a_lines b_lines)

/-- One node inserted into the name-keyed dict of Compare._load_nodes:
overwrite in place when the key exists, append otherwise. -/
def by_name_step (m : List (String × Node)) (n : Node) : List (String × Node) :=
  if m.any (fun p => p.1 == n.name) then
    m.map (fun p => if p.1 == n.name then (n.name, n) else p)
  else m ++ [(n.name, n)]

/-- `{n['name']: n for n in nodes}` in Compare._load_nodes: key order is first
insertion, value is the last write. -/
def by_name (nodes : List Node) : List (String × Node) :=
  nodes.foldl by_name_step []

/-- String order used to model Python `sorted` on names. -/
def strLe (a b : String) : Prop := strLeb a b = true

instance : DecidableRel strLe := fun _ _ => inferInstanceAs (Decidable (_ = true))

/-- `sorted(set(a_keys) | set(b_keys))` in Compare.build_compare. -/
def all_names (a_nodes b_nodes : List (String × Node)) : List String :=
  List.insertionSort strLe ((a_nodes.map Prod.fst ++ b_nodes.map Prod.fst).dedup)

/-- The name-level outputs of Compare.build_compare (figures and Dash HTML
are rendering only).  `statuses` records the status the loop computes for
each name of `all_names`, which the border maps consume. -/
structure CompareLists where
  a_borders : List (String × String)
  b_borders : List (String × String)
  added_in_a : List String
  added_in_b : List String
  changed : List String
  statuses : List (String × String)

/-- The classification loop of Compare.build_compare.  `if a_node and not
b_node` tests Python truthiness of the node dicts; nodes are never empty
dicts, so truthiness is presence. -/
def compare_step (a_nodes b_nodes : List (String × Node)) (acc : CompareLists)
    (name : String) : CompareLists :=
  let a_node := dictGet a_nodes name
  let b_node := dictGet b_nodes name
  let status := classify_diff a_node b_node
  let acc := { acc with statuses := acc.statuses ++ [(name, status)] }
  if status = "distinct" then
      if a_node.isSome && !b_node.isSome then
        { acc with a_borders := acc.a_borders ++ [(name, "distinct")],
                   added_in_a := acc.added_in_a ++ [name] }
      else if b_node.isSome && !a_node.isSome then
        { acc with b_borders := acc.b_borders ++ [(name, "distinct")],
                   added_in_b := acc.added_in_b ++ [name] }
      else
        { acc with a_borders := acc.a_borders ++ [(name, "distinct")],
                   b_borders := acc.b_borders ++ [(name, "distinct")] }
    else if status = "same" then
      { acc with a_borders := acc.a_borders ++ [(name, "same")],
                 b_borders := acc.b_borders ++ [(name, "same")] }
  else
    { acc with a_borders := acc.a_borders ++ [(name, "changed")],
               b_borders := acc.b_borders ++ [(name, "changed")],
               changed := acc.changed ++ [name] }

/-- The classification loop of Compare.build_compare over the sorted union of
names. -/
def build_compare_lists (a_nodes b_nodes : List (String × Node)) : CompareLists :=
  (all_names a_nodes b_nodes).foldl (compare_step a_nodes b_nodes)
    { a_borders := [], b_borders := [], added_in_a := [], added_in_b := [],
      changed := [], statuses := [] }

/-- Structural identity of two JSON-shaped values: equal scalars, pointwise
structurally identical arrays, and objects with (duplicate-free) equal key
sets whose values agree per key — the order in which object keys were
supplied is irrelevant. -/
inductive StructEq : Json → Json → Prop where
  | null : StructEq .null .null
  | bool (b : Bool) : StructEq (.bool b) (.bool b)
  | num (n : Int) : StructEq (.num n) (.num n)
  | str (s : String) : StructEq (.str s) (.str s)
  | arr (xs ys : List Json) (hlen : xs.length = ys.length)
      (h : ∀ (i : Nat) (hi : i < xs.length) (hj : i < ys.length),
        StructEq (xs.get ⟨i, hi⟩) (ys.get ⟨i, hj⟩)) : StructEq (.arr xs) (.arr ys)
  | obj (fs gs : List (String × Json))
      (hf : (fs.map Prod.fst).Nodup) (hg : (gs.map Prod.fst).Nodup)
      (hk : (fs.map Prod.fst).Perm (gs.map Prod.fst))
      (h : ∀ (k : String) (v w : Json), (k, v) ∈ fs → (k, w) ∈ gs → StructEq v w) :
      StructEq (.obj fs) (.obj gs)

/-! Concrete documents and nodes used by the counterexamples and witnesses. -/

def c1ItemA : Json :=
  .obj [("__reference_comparison_key", .str "<<Incentive:I[ClientProgram:P]>>"),
        ("name", .str "I"), ("info", .str "x")]

def c1ItemB : Json :=
  .obj [("__reference_comparison_key", .str "<<Incentive:I[ClientProgram:P]>>"),
        ("name", .str "I"), ("info", .str "y")]

def c1NodeA : Node :=
  { name := "<<Incentive:I[ClientProgram:P]>>", display_name := "I",
    nodeClass := some "Incentive", program := "P",
    content := .inc (.str "I") (.str "x"), connections := [], order := "primary",
    query := "False", json := Option.none, raw := some c1ItemA }

def c1NodeB : Node :=
  { name := "<<Incentive:I[ClientProgram:P]>>", display_name := "I",
    nodeClass := some "Incentive", program := "P",
    content := .inc (.str "I") (.str "y"), connections := [], order := "primary",
    query := "False", json := Option.none, raw := some c1ItemB }

def c3CexNode : Node :=
  { name := "<<Rule:R[ClientProgram:P]>>", display_name := "R",
    nodeClass := some "Rule", program := "P", content := .none,
    connections := ["<<ClientProgramX>>"], order := "primary", query := "False",
    json := Option.none, raw := Option.none }

def c3WitNode : Node :=
  { name := "<<Rule:R[ClientProgram:P]>>", display_name := "R",
    nodeClass := some "Rule", program := "P", content := .none,
    connections := ["<<Incentive:B[ClientProgram:P]>>"], order := "primary",
    query := "False", json := Option.none, raw := Option.none }

def c3WitSecondary : Node :=
  { name := "<<Incentive:B[ClientProgram:P]>>", display_name := "B",
    nodeClass := some "Incentive", program := "P", content := .none,
    connections := [], order := "secondary", query := "False",
    json := Option.none, raw := Option.none }

def c5CexNode : Node :=
  { name := "<<Rule:R[ClientProgram:P]>>", display_name := "R",
    nodeClass := some "Rule", program := "P", content := .none,
    connections := ["<<Rule:Foo>>"], order := "primary", query := "False",
    json := Option.none, raw := Option.none }

def c5WitNode : Node :=
  { name := "<<Rule:R[ClientProgram:P]>>", display_name := "R",
    nodeClass := some "Rule", program := "P", content := .none,
    connections := ["a plain mention"], order := "primary", query := "False",
    json := Option.none, raw := Option.none }

def c6Item : Json :=
  .obj [("__reference_comparison_key", .str "<<Rule:W[ClientProgram:P]>>")]

def c6Node : Node :=
  { name := "<<Rule:W[ClientProgram:P]>>", display_name := "W",
    nodeClass := some "Rule", program := "P", content := .none,
    connections := [], order := "primary", query := "False",
    json := Option.none, raw := some c6Item }

def c7A : Json := .obj [("b", .num 1), ("a", .obj [("d", .null), ("c", .bool true)])]

def c7B : Json := .obj [("a", .obj [("c", .bool true), ("d", .null)]), ("b", .num 1)]

def c9Node : Node :=
  { name := "<<Topic:T[ClientProgram:P]>>", display_name := "T",
    nodeClass := some "ClientTopic", program := "P", content := .none,
    connections := [], order := "primary", query := "False",
    json := Option.none, raw := Option.none }

def c10Item : Json :=
  .obj [("__reference_comparison_key", .str "<<Incentive:A[ClientProgram:P]>>"),
        ("name", .str "A"), ("info", .str "see <<Rule:B[ClientProgram:P]>>")]

def c10Node : Node :=
  { name := "<<Incentive:A[ClientProgram:P]>>", display_name := "A",
    nodeClass := some "Incentive", program := "P",
    content := .inc (.str "A") (.str "see <<Rule:B[ClientProgram:P]>>"),
    connections := ["<<Rule:B[ClientProgram:P]>>"], order := "primary",
    query := "False", json := Option.none, raw := some c10Item }

/-! Helper lemmas. -/

theorem dedent_block_length (block : List String) :
    (dedent_block block).length = block.length := by
  simp only [dedent_block]
  split
  · rfl
  · split
    · rfl
    · simp

theorem two_column_step_balance (a_lines b_lines : List String)
    (cols : List String × List String) (op : OpCode)
    (h : cols.1.length = cols.2.length) :
    (two_column_step a_lines b_lines cols op).1.length
      = (two_column_step a_lines b_lines cols op).2.length := by
  simp only [two_column_step]
  cases op.tag <;> simp [h]

theorem two_column_rows_balance (a_lines b_lines : List String) (ops : List OpCode) :
    (two_column_rows a_lines b_lines ops).1.length
      = (two_column_rows a_lines b_lines ops).2.length := by
  simp only [two_column_rows]
  suffices h : ∀ cols : List String × List String, cols.1.length = cols.2.length →
      (ops.foldl (two_column_step a_lines b_lines) cols).1.length
        = (ops.foldl (two_column_step a_lines b_lines) cols).2.length from
    h ([], []) rfl
  induction ops with
  | nil => intro cols h; simpa using h
  | cons op rest ih =>
    intro cols h
    simpa using ih _ (two_column_step_balance _ _ _ _ h)

theorem dictGet_none_any (fs : List (String × Json)) (k : String)
    (h : dictGet fs k = Option.none) : fs.any (fun p => p.1 == k) = false := by
  induction fs with
  | nil => rfl
  | cons p rest ih =>
    obtain ⟨a, v⟩ := p
    simp only [dictGet] at h
    split at h
    · exact absurd h (by simp)
    · rename_i hne
      simp [ih h, hne]

theorem get_content_no_class (j : Json) (s : String) :
    get_content j Option.none s = .ok Content.none := rfl

/-! C8 -/

/-- C8: for every pair of input text blocks, the aligned two-column differ
produces exactly as many left-column rows as right-column rows: equal and
replace runs advance both columns by the longer slice's length (padding with
blank cells), and delete/insert runs pad the opposite column by the run's
full length. -/
theorem aligned_differ_rows_balanced (a_text b_text : String) :
    (two_column_diff a_text b_text).1.length
      = (two_column_diff a_text b_text).2.length := by
  simp only [two_column_diff]
  exact two_column_rows_balance _ _ _

/-! C2 -/

/-- C2 counterexample: a MessageConfig item whose `message` field is absent
makes `get_content` raise `KeyError` and the whole load fail, instead of
degrading to null content and emitting the node. -/
theorem content_raises_on_missing_message :
    get_content (Json.obj [("__reference_comparison_key",
        Json.str "<<MessageConfig:M[ClientProgram:P]>>")]) (some "MessageConfig") ""
      = .error (.keyError "message") ∧
    find_nodes [Json.arr [Json.obj [("__reference_comparison_key",
        Json.str "<<MessageConfig:M[ClientProgram:P]>>")]]]
      = .error (.keyError "message") := ⟨rfl, rfl⟩

/-- C2 (amended): only the page-layout class tolerates an absent
class-specific field: a ClientPageLayout item without `pageLayoutElements`
yields null content without raising; for the message / incentive /
custom-field classes an absent field raises a KeyError and the item is not
emitted. -/
theorem page_layout_missing_elements_ok (fs : List (String × Json)) (s : String)
    (h : dictGet fs "pageLayoutElements" = Option.none) :
    get_content (.obj fs) (some "ClientPageLayout") s = .ok Content.none := by
  have hany := dictGet_none_any fs _ h
  simp [get_content, pyHasKey, hany, Bind.bind, Except.bind, pure, Except.pure]

/-- Witness for the C2 amended theorem at a concrete item. -/
theorem page_layout_missing_elements_ok_witness :
    dictGet [("x", Json.null)] "pageLayoutElements" = Option.none ∧
    get_content (.obj [("x", Json.null)]) (some "ClientPageLayout") ""
      = .ok Content.none :=
  ⟨rfl, page_layout_missing_elements_ok _ "" rfl⟩

/-! C5 -/

/-- C5 counterexample: `<<Rule:Foo>>` does not match the full reference-key
grammar (it has no `[ClientProgram:...]` segment), yet the closure builder
raises IndexError on it rather than silently skipping it. -/
theorem closure_raises_on_unbracketed_colon_key :
    strContains "<<Rule:Foo>>" "[" = false ∧
    create_secondary_nodes [c5CexNode] = .error .indexError := ⟨rfl, rfl⟩

theorem closure_fold_ineligible (conns : List String) :
    ∀ st : List String × List Node,
      conns.all (fun r => !closure_eligible (pyStrip r)) = true →
      ∃ seen, conns.foldlM closure_step st = .ok (seen, st.2) := by
  induction conns with
  | nil => intro st _; exact ⟨st.1, rfl⟩
  | cons c rest ih =>
    intro st h
    simp only [List.all_cons, Bool.and_eq_true, Bool.not_eq_true'] at h
    obtain ⟨hc, hrest⟩ := h
    have hstep : ∃ seen1, closure_step st c = .ok (seen1, st.2) := by
      simp only [closure_step]
      split
      · exact ⟨st.1, rfl⟩
      · rw [if_neg (by simp [hc])]
        exact ⟨st.1 ++ [pyStrip c], rfl⟩
    obtain ⟨seen1, hs⟩ := hstep
    simp only [List.foldlM_cons, hs, Bind.bind, Except.bind]
    simpa using ih (seen1, st.2) (by simpa using hrest)

theorem closure_outer_ineligible (ns : List Node) :
    ∀ st : List String × List Node,
      ns.all (fun n => n.connections.all (fun r => !closure_eligible (pyStrip r))) = true →
      ∃ seen, ns.foldlM closure_node_step st = .ok (seen, st.2) := by
  induction ns with
  | nil => intro st _; exact ⟨st.1, rfl⟩
  | cons n rest ih =>
    intro st h
    simp only [List.all_cons, Bool.and_eq_true] at h
    obtain ⟨hn, hrest⟩ := h
    obtain ⟨seen1, hs⟩ := closure_fold_ineligible n.connections st hn
    simp only [List.foldlM_cons, closure_node_step, hs, Bind.bind, Except.bind]
    simpa using ih (seen1, st.2) (by simpa using hrest)

/-- C5 (amended): a connection key is silently skipped — no node synthesized,
no error — exactly when its stripped text fails the builder's eligibility
check (starts `<<`, ends `>>`, contains `:`), which is weaker than the full
`<<Class:Name[ClientProgram:Program]>>` grammar; a key passing that weak
check but lacking the bracketed program segment makes the builder raise. -/
theorem closure_skips_ineligible_keys (nodes : List Node)
    (h : nodes.all (fun n =>
        n.connections.all (fun r => !closure_eligible (pyStrip r))) = true) :
    create_secondary_nodes nodes = .ok nodes := by
  obtain ⟨seen, hf⟩ := closure_outer_ineligible nodes (nodes.map Node.name, nodes) h
  simp only [create_secondary_nodes, hf]

/-- Witness for the C5 amended theorem at a concrete node whose only
connection is plain text. -/
theorem closure_skips_ineligible_keys_witness :
    [c5WitNode].all (fun n =>
        n.connections.all (fun r => !closure_eligible (pyStrip r))) = true ∧
    create_secondary_nodes [c5WitNode] = .ok [c5WitNode] :=
  ⟨rfl, closure_skips_ineligible_keys _ rfl⟩

/-! C4 -/

/-- C4 counterexample: an item whose marker key `<<Bogus:Name>>` is both of
unrecognized class and malformed (no program bracket) makes `find_nodes`
raise IndexError instead of silently excluding the item. -/
theorem extractor_raises_on_malformed_key :
    classify_item_type "<<Bogus:Name>>" = Option.none ∧
    find_nodes [Json.arr [Json.obj [("__reference_comparison_key",
        Json.str "<<Bogus:Name>>")]]] = .error .indexError := ⟨rfl, rfl⟩

/-- C4 (amended): an item whose key has an unrecognized class prefix
(including a RuleSet key whose name contains `None`) is silently excluded
only when the key still parses positionally (a `:` in its head segment and a
`[` separator); keys missing those separators raise IndexError. -/
theorem unrecognized_class_item_dropped (fs : List (String × Json)) (key d p : String)
    (h1 : dictGet fs "__reference_comparison_key" = some (Json.str key))
    (h2 : (key != "") = true)
    (h3 : pyAt (pySplit (pyStrip ((pySplit (strDrop key 2) "[").headD "")) ":") 1 = .ok d)
    (h4 : pyAt (pySplit key "[") 1 = .ok p)
    (h5 : classify_item_type key = Option.none) :
    processItem (.obj fs) = .ok Option.none := by
  simp only [processItem, h1, pyTruthy, h2, Bool.not_true, Bool.false_eq_true,
    if_false, h3, h4, h5, get_content_no_class, Option.isSome_none,
    Bool.false_eq_true, if_neg]

/-- Witness for the C4 amended theorem: a RuleSet key whose name contains the
literal text `None`. -/
theorem unrecognized_class_item_dropped_witness :
    classify_item_type "<<RuleSet:None Stuff[ClientProgram:P]>>" = Option.none ∧
    processItem (.obj [("__reference_comparison_key",
        Json.str "<<RuleSet:None Stuff[ClientProgram:P]>>")]) = .ok Option.none :=
  ⟨rfl, unrecognized_class_item_dropped _ _ "None Stuff" "ClientProgram:P]>>"
    rfl rfl rfl rfl rfl⟩

/-! C1 -/

/-- C1 (code bug): the diff classifier compares the `json` field, which no
code path ever populates, instead of the canonical text of the raw
documents; two primary nodes loaded from documents that differ (and whose
canonical texts differ) are classified `same`. -/
theorem diff_classifier_compares_unset_json_field :
    find_nodes [Json.arr [c1ItemA]] = .ok [c1NodeA] ∧
    find_nodes [Json.arr [c1ItemB]] = .ok [c1NodeB] ∧
    c1NodeA.name = c1NodeB.name ∧
    classify_diff (some c1NodeA) (some c1NodeB) = "same" ∧
    (node_json_pretty (some c1NodeA) 10 == node_json_pretty (some c1NodeB) 10) = false :=
  ⟨rfl, rfl, rfl, rfl, rfl⟩

/-! C9 -/

theorem dictGet_isSome_iff {α : Type} (m : List (String × α)) (k : String) :
    (dictGet m k).isSome = true ↔ k ∈ m.map Prod.fst := by
  induction m with
  | nil => simp [dictGet]
  | cons p rest ih =>
    obtain ⟨a, v⟩ := p
    by_cases hk : a = k
    · simp [dictGet, hk]
    · simp [dictGet, hk, ih, Ne.symm hk]

theorem classify_diff_both_some (a b : Node) :
    classify_diff (some a) (some b) = "same" ∨ classify_diff (some a) (some b) = "changed" := by
  simp only [classify_diff]
  split
  · right; rfl
  · split
    · left; rfl
    · right; rfl

theorem compare_step_added_a (aN bN : List (String × Node)) (acc : CompareLists)
    (name : String) :
    (compare_step aN bN acc name).added_in_a =
      if ((dictGet aN name).isSome && !(dictGet bN name).isSome) = true then
        acc.added_in_a ++ [name]
      else acc.added_in_a := by
  cases ha : dictGet aN name with
  | none => cases hb : dictGet bN name with
    | none => simp [compare_step, classify_diff, ha, hb]
    | some b => simp [compare_step, classify_diff, ha, hb]
  | some a => cases hb : dictGet bN name with
    | none => simp [compare_step, classify_diff, ha, hb]
    | some b =>
      rcases classify_diff_both_some a b with h | h <;>
        simp [compare_step, ha, hb, h]

theorem compare_step_added_b (aN bN : List (String × Node)) (acc : CompareLists)
    (name : String) :
    (compare_step aN bN acc name).added_in_b =
      if ((dictGet bN name).isSome && !(dictGet aN name).isSome) = true then
        acc.added_in_b ++ [name]
      else acc.added_in_b := by
  cases ha : dictGet aN name with
  | none => cases hb : dictGet bN name with
    | none => simp [compare_step, classify_diff, ha, hb]
    | some b => simp [compare_step, classify_diff, ha, hb]
  | some a => cases hb : dictGet bN name with
    | none => simp [compare_step, classify_diff, ha, hb]
    | some b =>
      rcases classify_diff_both_some a b with h | h <;>
        simp [compare_step, ha, hb, h]

theorem fold_added_a (aN bN : List (String × Node)) (L : List String) :
    ∀ acc : CompareLists,
      (L.foldl (compare_step aN bN) acc).added_in_a
        = acc.added_in_a
            ++ L.filter (fun n => (dictGet aN n).isSome && !(dictGet bN n).isSome) := by
  induction L with
  | nil => intro acc; simp
  | cons n rest ih =>
    intro acc
    simp only [List.foldl_cons, ih, List.filter_cons]
    rw [compare_step_added_a]
    split
    · rename_i h
      simp [h, List.append_assoc]
    · rename_i h
      simp only [Bool.not_eq_true] at h
      simp [h]

theorem fold_added_b (aN bN : List (String × Node)) (L : List String) :
    ∀ acc : CompareLists,
      (L.foldl (compare_step aN bN) acc).added_in_b
        = acc.added_in_b
            ++ L.filter (fun n => (dictGet bN n).isSome && !(dictGet aN n).isSome) := by
  induction L with
  | nil => intro acc; simp
  | cons n rest ih =>
    intro acc
    simp only [List.foldl_cons, ih, List.filter_cons]
    rw [compare_step_added_b]
    split
    · rename_i h
      simp [h, List.append_assoc]
    · rename_i h
      simp only [Bool.not_eq_true] at h
      simp [h]

theorem mem_all_names (aN bN : List (String × Node)) (n : String) :
    n ∈ all_names aN bN ↔ n ∈ aN.map Prod.fst ∨ n ∈ bN.map Prod.fst := by
  simp only [all_names]
  rw [(List.perm_insertionSort strLe _).mem_iff]
  simp

/-- C9: the added-in-A and added-in-B lists are disjoint and their union is
exactly the symmetric difference of the two snapshots' name sets: a name is
listed as distinct exactly when it is present in one mapping and absent from
the other. -/
theorem distinct_lists_symmetric_difference (a_nodes b_nodes : List (String × Node)) :
    (∀ n, n ∈ (build_compare_lists a_nodes b_nodes).added_in_a →
        n ∉ (build_compare_lists a_nodes b_nodes).added_in_b) ∧
    (∀ n, (n ∈ (build_compare_lists a_nodes b_nodes).added_in_a ∨
           n ∈ (build_compare_lists a_nodes b_nodes).added_in_b) ↔
        (((dictGet a_nodes n).isSome && !(dictGet b_nodes n).isSome) = true ∨
         ((dictGet b_nodes n).isSome && !(dictGet a_nodes n).isSome) = true)) := by
  have ha := fold_added_a a_nodes b_nodes (all_names a_nodes b_nodes)
    { a_borders := [], b_borders := [], added_in_a := [], added_in_b := [],
      changed := [], statuses := [] }
  have hb := fold_added_b a_nodes b_nodes (all_names a_nodes b_nodes)
    { a_borders := [], b_borders := [], added_in_a := [], added_in_b := [],
      changed := [], statuses := [] }
  simp only [build_compare_lists, ha, hb, List.nil_append]
  constructor
  · intro n hna hnb
    rw [List.mem_filter] at hna hnb
    have h1 := hna.2
    have h2 := hnb.2
    simp only [Bool.and_eq_true, Bool.not_eq_true'] at h1 h2
    rw [h1.2] at h2
    exact absurd h2.1 (by simp)
  · intro n
    constructor
    · intro h
      rcases h with h | h <;> rw [List.mem_filter] at h
      · exact Or.inl h.2
      · exact Or.inr h.2
    · intro h
      rcases h with h | h
      · refine Or.inl (List.mem_filter.mpr ⟨?_, h⟩)
        rw [mem_all_names]
        have := (Bool.and_eq_true _ _).mp h
        exact Or.inl ((dictGet_isSome_iff _ _).mp this.1)
      · refine Or.inr (List.mem_filter.mpr ⟨?_, h⟩)
        rw [mem_all_names]
        have := (Bool.and_eq_true _ _).mp h
        exact Or.inr ((dictGet_isSome_iff _ _).mp this.1)

/-- Witness for C9 at concrete one-node mappings. -/
theorem distinct_lists_symmetric_difference_witness :
    "<<Topic:T[ClientProgram:P]>>"
        ∈ (build_compare_lists [("<<Topic:T[ClientProgram:P]>>", c9Node)] []).added_in_a ∧
    "<<Topic:T[ClientProgram:P]>>"
        ∉ (build_compare_lists [("<<Topic:T[ClientProgram:P]>>", c9Node)] []).added_in_b := by
  have h := distinct_lists_symmetric_difference [("<<Topic:T[ClientProgram:P]>>", c9Node)] []
  have hu := (h.2 "<<Topic:T[ClientProgram:P]>>").mpr (Or.inl (by rfl))
  have hbemp :
      (build_compare_lists [("<<Topic:T[ClientProgram:P]>>", c9Node)] []).added_in_b
        = [] := rfl
  rcases hu with hu | hu
  · exact ⟨hu, by rw [hbemp]; simp⟩
  · rw [hbemp] at hu
    simp at hu

/-! C10 -/

theorem foldlM_except_inv {α β : Type} (f : β → α → Except PyErr β) (P : β → Prop)
    (hf : ∀ b a b', f b a = .ok b' → P b → P b') :
    ∀ (l : List α) (b b' : β), l.foldlM f b = .ok b' → P b → P b' := by
  intro l
  induction l with
  | nil =>
    intro b b' h hp
    simp only [List.foldlM_nil] at h
    cases h
    exact hp
  | cons a rest ih =>
    intro b b' h hp
    simp only [List.foldlM_cons] at h
    cases hfa : f b a with
    | error e => rw [hfa] at h; simp [Bind.bind, Except.bind] at h
    | ok b1 =>
      rw [hfa] at h
      simp only [Bind.bind, Except.bind] at h
      exact ih b1 b' h (hf b a b1 hfa hp)

theorem contains_eq_false_iff (l : List String) (a : String) :
    l.contains a = false ↔ a ∉ l := by
  induction l with
  | nil => simp
  | cons b t ih =>
    simp only [List.contains_cons, Bool.or_eq_false_iff, List.mem_cons, not_or, ih,
      beq_eq_false_iff_ne, ne_eq]

theorem ref_step_cases (acc : List String) (m : String) :
    ref_step acc m = acc ∨
    (ref_step acc m = acc ++ [pyStrip m] ∧ acc.contains (pyStrip m) = false ∧
      (classify_item_type (pyStrip m)).isSome = true) := by
  simp only [ref_step]
  split
  · split
    · rename_i h1 h2
      refine Or.inr ⟨rfl, ?_, h2⟩
      simp only [Bool.and_eq_true] at h1
      simpa using h1.2
    · exact Or.inl rfl
  · exact Or.inl rfl

theorem ref_fold_nodup (ms : List String) :
    ∀ acc : List String, acc.Nodup → (ms.foldl ref_step acc).Nodup := by
  induction ms with
  | nil => intro acc h; exact h
  | cons m rest ih =>
    intro acc h
    simp only [List.foldl_cons]
    rcases ref_step_cases acc m with hc | ⟨hc, hnc, _⟩
    · rw [hc]; exact ih acc h
    · rw [hc]
      refine ih _ (List.nodup_append.mpr ⟨h, List.nodup_singleton _, ?_⟩)
      intro a ha hb
      rw [List.mem_singleton] at hb
      subst hb
      exact (contains_eq_false_iff _ _).mp hnc ha

theorem ref_fold_classify (ms : List String) :
    ∀ acc : List String, (∀ r ∈ acc, (classify_item_type r).isSome = true) →
      ∀ r ∈ ms.foldl ref_step acc, (classify_item_type r).isSome = true := by
  induction ms with
  | nil => intro acc h; exact h
  | cons m rest ih =>
    intro acc h
    simp only [List.foldl_cons]
    rcases ref_step_cases acc m with hc | ⟨hc, _, hcl⟩
    · rw [hc]; exact ih acc h
    · rw [hc]
      refine ih _ ?_
      intro r hr
      rcases List.mem_append.mp hr with hr | hr
      · exact h r hr
      · rw [List.mem_singleton] at hr
        subst hr
        exact hcl

theorem get_references_nodup (s : String) : (get_references s).Nodup :=
  ref_fold_nodup _ _ List.nodup_nil

theorem get_references_classify (s : String) :
    ∀ r ∈ get_references s, (classify_item_type r).isSome = true :=
  ref_fold_classify _ _ (by simp)

theorem processItem_ok_shape (it : Json) (nd : Node)
    (h : processItem it = .ok (some nd)) :
    nd.order = "primary" ∧ nd.json = Option.none ∧ nd.raw.isSome = true ∧
    nd.connections
      = (get_references (pyRepr (nd.raw.getD Json.null))).filter
          (fun r => r != nd.name) := by
  cases it with
  | obj fs =>
    simp only [processItem] at h
    split at h
    · exact absurd h (by simp)
    · split at h
      · exact absurd h (by simp)
      · split at h
        · split at h
          · exact absurd h (by simp)
          · split at h
            · exact absurd h (by simp)
            · split at h
              · exact absurd h (by simp)
              · split at h
                · cases h
                  exact ⟨rfl, rfl, rfl, rfl⟩
                · exact absurd h (by simp)
        · exact absurd h (by simp)
  | null => exact absurd h (by simp [processItem])
  | bool b => exact absurd h (by simp [processItem])
  | num n => exact absurd h (by simp [processItem])
  | str s => exact absurd h (by simp [processItem])
  | arr xs => exact absurd h (by simp [processItem])

theorem find_nodes_mem_processed (files : List Json) (ns : List Node)
    (h : find_nodes files = .ok ns) :
    ∀ nd ∈ ns, ∃ it, processItem it = .ok (some nd) := by
  refine foldlM_except_inv file_step
    (fun b => ∀ nd ∈ b, ∃ it, processItem it = .ok (some nd)) ?_ files [] ns h (by simp)
  intro b doc b' hstep hp
  simp only [file_step] at hstep
  split at hstep
  · exact absurd hstep (by simp)
  · rename_i items hflat
    refine foldlM_except_inv item_step
      (fun acc => ∀ nd ∈ acc, ∃ it, processItem it = .ok (some nd)) ?_ items b b' hstep hp
    intro acc it acc' histep hacc
    simp only [item_step] at histep
    split at histep
    · exact absurd histep (by simp)
    · rename_i n hproc
      cases histep
      intro nd hnd
      rcases List.mem_append.mp hnd with hnd | hnd
      · exact hacc nd hnd
      · rw [List.mem_singleton] at hnd
        exact ⟨it, hnd ▸ hproc⟩
    · cases histep
      exact hacc

/-- C10: every extracted primary node's connections list is exactly the
reference keys scanned (by the bracket grammar) from the item's canonical
string form, restricted to recognized classes, deduplicated in first-seen
order, with the node's own key removed; in particular no node's connections
list contains its own name. -/
theorem connections_scan_filter_dedup_no_self (files : List Json) (nodes : List Node)
    (nd : Node) (h : find_nodes files = .ok nodes) (hmem : nd ∈ nodes) :
    nd.raw.isSome = true ∧
    nd.connections
      = (get_references (pyRepr (nd.raw.getD Json.null))).filter
          (fun r => r != nd.name) ∧
    nd.connections.Nodup ∧
    nd.connections.all (fun r => (classify_item_type r).isSome) = true ∧
    nd.name ∉ nd.connections := by
  obtain ⟨it, hit⟩ := find_nodes_mem_processed files nodes h nd hmem
  obtain ⟨_, _, hraw, hconn⟩ := processItem_ok_shape it nd hit
  refine ⟨hraw, hconn, ?_, ?_, ?_⟩
  · rw [hconn]
    exact (get_references_nodup _).filter _
  · rw [hconn]
    rw [List.all_eq_true]
    intro r hr
    exact get_references_classify _ r (List.mem_of_mem_filter hr)
  · rw [hconn]
    intro hself
    have := List.of_mem_filter hself
    simp at this

/-! C6 -/

theorem contains_eq_true_iff (l : List String) (a : String) :
    l.contains a = true ↔ a ∈ l := by
  constructor
  · intro hc
    by_contra hmem
    rw [(contains_eq_false_iff l a).mpr hmem] at hc
    exact Bool.false_ne_true hc
  · intro hmem
    cases hc : l.contains a with
    | false => exact absurd hmem ((contains_eq_false_iff l a).mp hc)
    | true => rfl

theorem find_nodes_all_primary (files : List Json) (ns : List Node)
    (h : find_nodes files = .ok ns) :
    ns.all (fun nd => nd.order == "primary") = true := by
  rw [List.all_eq_true]
  intro nd hnd
  obtain ⟨it, hit⟩ := find_nodes_mem_processed files ns h nd hnd
  have := (processItem_ok_shape it nd hit).1
  simp [this]

theorem by_name_step_keys (m : List (String × Node)) (n : Node) :
    (by_name_step m n).map Prod.fst
      = if m.any (fun p => p.1 == n.name) then m.map Prod.fst
        else m.map Prod.fst ++ [n.name] := by
  simp only [by_name_step]
  split
  · rw [List.map_map]
    apply List.map_congr_left
    intro p _
    simp only [Function.comp_apply]
    split
    · rename_i hpe
      simp only [beq_iff_eq] at hpe
      simp [hpe]
    · rfl
  · simp

theorem by_name_fold_keys (ns : List Node) :
    ∀ (m : List (String × Node)) (k : String),
      k ∈ (ns.foldl by_name_step m).map Prod.fst ↔
        k ∈ m.map Prod.fst ∨ ∃ nd ∈ ns, nd.name = k := by
  induction ns with
  | nil => intro m k; simp
  | cons n rest ih =>
    intro m k
    simp only [List.foldl_cons]
    rw [ih, by_name_step_keys]
    split
    · rename_i hany
      constructor
      · rintro (hk | hk)
        · exact Or.inl hk
        · obtain ⟨nd, hnd, hname⟩ := hk
          exact Or.inr ⟨nd, List.mem_cons_of_mem _ hnd, hname⟩
      · rintro (hk | ⟨nd, hnd, hname⟩)
        · exact Or.inl hk
        · rcases List.mem_cons.mp hnd with rfl | hnd
          · left
            subst hname
            obtain ⟨p, hp, hpe⟩ := List.any_eq_true.mp hany
            simp only [beq_iff_eq] at hpe
            exact hpe ▸ List.mem_map_of_mem Prod.fst hp
          · exact Or.inr ⟨nd, hnd, hname⟩
    · constructor
      · rintro (hk | hk)
        · rcases List.mem_append.mp hk with hk | hk
          · exact Or.inl hk
          · rw [List.mem_singleton] at hk
            exact Or.inr ⟨n, List.mem_cons_self _ _, hk.symm⟩
        · obtain ⟨nd, hnd, hname⟩ := hk
          exact Or.inr ⟨nd, List.mem_cons_of_mem _ hnd, hname⟩
      · rintro (hk | ⟨nd, hnd, hname⟩)
        · exact Or.inl (List.mem_append.mpr (Or.inl hk))
        · rcases List.mem_cons.mp hnd with rfl | hnd
          · exact Or.inl (List.mem_append.mpr (Or.inr (by simp [hname.symm])))
          · exact Or.inr ⟨nd, hnd, hname⟩

theorem by_name_keys (ns : List Node) (k : String) :
    k ∈ (by_name ns).map Prod.fst ↔ ∃ nd ∈ ns, nd.name = k := by
  rw [by_name, by_name_fold_keys]
  simp

theorem compare_step_statuses (aN bN : List (String × Node)) (acc : CompareLists)
    (name : String) :
    (compare_step aN bN acc name).statuses
      = acc.statuses ++ [(name, classify_diff (dictGet aN name) (dictGet bN name))] := by
  simp only [compare_step]
  split
  · split
    · rfl
    · split
      · rfl
      · rfl
  · split
    · rfl
    · rfl

theorem fold_statuses (aN bN : List (String × Node)) (L : List String) :
    ∀ acc : CompareLists,
      ((L.foldl (compare_step aN bN) acc).statuses).map Prod.fst
        = acc.statuses.map Prod.fst ++ L := by
  induction L with
  | nil => intro acc; simp
  | cons n rest ih =>
    intro acc
    simp only [List.foldl_cons, ih, compare_step_statuses]
    simp

theorem compare_step_changed_sub (aN bN : List (String × Node)) (acc : CompareLists)
    (name : String) :
    ∀ x ∈ (compare_step aN bN acc name).changed, x ∈ acc.changed ∨ x = name := by
  simp only [compare_step]
  split
  · split
    · exact fun x hx => Or.inl hx
    · split
      · exact fun x hx => Or.inl hx
      · exact fun x hx => Or.inl hx
  · split
    · exact fun x hx => Or.inl hx
    · intro x hx
      rcases List.mem_append.mp hx with hx | hx
      · exact Or.inl hx
      · rw [List.mem_singleton] at hx
        exact Or.inr hx

theorem fold_changed_sub (aN bN : List (String × Node)) (L : List String) :
    ∀ acc : CompareLists, ∀ x ∈ (L.foldl (compare_step aN bN) acc).changed,
      x ∈ acc.changed ∨ x ∈ L := by
  induction L with
  | nil => intro acc x hx; exact Or.inl hx
  | cons n rest ih =>
    intro acc x hx
    simp only [List.foldl_cons] at hx
    rcases ih _ x hx with hx' | hx'
    · rcases compare_step_changed_sub aN bN acc n x hx' with h | h
      · exact Or.inl h
      · exact Or.inr (by simp [h])
    · exact Or.inr (List.mem_cons_of_mem _ hx')

/-- C6: the diff classifier assigns a status to exactly the union of the two
snapshots' primary node names: loading for comparison runs only the
extractor (never the closure builder), every loaded node is primary, and the
added/changed lists only ever name status-covered (hence primary) names — no
secondary entity can appear in them. -/
theorem compare_statuses_cover_primary_union (filesA filesB : List Json)
    (nsA nsB : List Node) (hA : find_nodes filesA = .ok nsA)
    (hB : find_nodes filesB = .ok nsB) :
    ((build_compare_lists (by_name nsA) (by_name nsB)).statuses.map Prod.fst
        = all_names (by_name nsA) (by_name nsB)) ∧
    ((by_name nsA).map Prod.fst).all
        (fun k => (nsA.map Node.name).contains k) = true ∧
    ((by_name nsB).map Prod.fst).all
        (fun k => (nsB.map Node.name).contains k) = true ∧
    (nsA.map Node.name).all
        (fun k => ((by_name nsA).map Prod.fst).contains k) = true ∧
    (nsB.map Node.name).all
        (fun k => ((by_name nsB).map Prod.fst).contains k) = true ∧
    nsA.all (fun nd => nd.order == "primary") = true ∧
    nsB.all (fun nd => nd.order == "primary") = true ∧
    ((build_compare_lists (by_name nsA) (by_name nsB)).added_in_a ++
     (build_compare_lists (by_name nsA) (by_name nsB)).added_in_b ++
     (build_compare_lists (by_name nsA) (by_name nsB)).changed).all
        (fun n =>
          ((build_compare_lists (by_name nsA) (by_name nsB)).statuses.map
            Prod.fst).contains n) = true := by
  have hstat : (build_compare_lists (by_name nsA) (by_name nsB)).statuses.map Prod.fst
      = all_names (by_name nsA) (by_name nsB) := by
    rw [build_compare_lists, fold_statuses]
    simp
  refine ⟨hstat, ?_, ?_, ?_, ?_, find_nodes_all_primary _ _ hA,
    find_nodes_all_primary _ _ hB, ?_⟩
  · rw [List.all_eq_true]
    intro k hk
    obtain ⟨nd, hnd, hname⟩ := (by_name_keys nsA k).mp hk
    exact (contains_eq_true_iff _ _).mpr (hname ▸ List.mem_map_of_mem Node.name hnd)
  · rw [List.all_eq_true]
    intro k hk
    obtain ⟨nd, hnd, hname⟩ := (by_name_keys nsB k).mp hk
    exact (contains_eq_true_iff _ _).mpr (hname ▸ List.mem_map_of_mem Node.name hnd)
  · rw [List.all_eq_true]
    intro k hk
    obtain ⟨nd, hnd, hname⟩ := List.mem_map.mp hk
    exact (contains_eq_true_iff _ _).mpr ((by_name_keys nsA k).mpr ⟨nd, hnd, hname⟩)
  · rw [List.all_eq_true]
    intro k hk
    obtain ⟨nd, hnd, hname⟩ := List.mem_map.mp hk
    exact (contains_eq_true_iff _ _).mpr ((by_name_keys nsB k).mpr ⟨nd, hnd, hname⟩)
  · rw [List.all_eq_true]
    intro n hn
    rw [contains_eq_true_iff, hstat]
    rcases List.mem_append.mp hn with hn | hn
    · rcases List.mem_append.mp hn with hn | hn
      · have ha := fold_added_a (by_name nsA) (by_name nsB)
          (all_names (by_name nsA) (by_name nsB))
          { a_borders := [], b_borders := [], added_in_a := [], added_in_b := [],
            changed := [], statuses := [] }
        rw [build_compare_lists, ha] at hn
        simp only [List.nil_append] at hn
        exact List.mem_of_mem_filter hn
      · have hb := fold_added_b (by_name nsA) (by_name nsB)
          (all_names (by_name nsA) (by_name nsB))
          { a_borders := [], b_borders := [], added_in_a := [], added_in_b := [],
            changed := [], statuses := [] }
        rw [build_compare_lists, hb] at hn
        simp only [List.nil_append] at hn
        exact List.mem_of_mem_filter hn
    · rw [build_compare_lists] at hn
      rcases fold_changed_sub _ _ _ _ n hn with h | h
      · simp at h
      · exact h

/-- Witness for C6 on a one-item snapshot A and an empty snapshot B. -/
theorem compare_statuses_cover_primary_union_witness :
    ((build_compare_lists (by_name [c6Node]) (by_name [])).statuses.map Prod.fst
        = all_names (by_name [c6Node]) (by_name [])) ∧
    (([c6Node].map Node.name).all
        (fun k => ((by_name [c6Node]).map Prod.fst).contains k) = true) ∧
    [c6Node].all (fun nd => nd.order == "primary") = true := by
  have h := compare_statuses_cover_primary_union [Json.arr [c6Item]] [] [c6Node] []
    rfl rfl
  exact ⟨h.1, h.2.2.2.1, h.2.2.2.2.2.1⟩

/-! C3 -/

theorem synth_node_shape (c : String) (nd : Node) (h : synth_node c = .ok nd) :
    nd.name = c ∧ nd.connections = [] ∧ nd.nodeClass = classify_item_type c := by
  simp only [synth_node] at h
  split at h
  · split at h
    · exact absurd h (by simp)
    · cases h
      exact ⟨rfl, rfl, rfl⟩
  · split at h
    · exact absurd h (by simp)
    · split at h
      · exact absurd h (by simp)
      · cases h
        exact ⟨rfl, rfl, rfl⟩

theorem closure_step_props (st st' : List String × List Node) (c : String)
    (h : closure_step st c = .ok st') :
    (∀ s ∈ st.1, s ∈ st'.1) ∧ pyStrip c ∈ st'.1 ∧ (∀ nd ∈ st.2, nd ∈ st'.2) ∧
    (∀ nd ∈ st'.2, nd ∈ st.2 ∨ nd.connections = []) ∧
    (closure_inv st → closure_inv st') := by
  simp only [closure_step] at h
  split at h
  · rename_i hmem
    cases h
    exact ⟨fun s hs => hs, (contains_eq_true_iff _ _).mp hmem, fun nd hnd => hnd,
      fun nd hnd => Or.inl hnd, fun hi => hi⟩
  · rename_i hmem
    split at h
    · split at h
      · exact absurd h (by simp)
      · rename_i nd0 hsynth
        obtain ⟨hname, hconn, hclass⟩ := synth_node_shape _ _ hsynth
        split at h
        · rename_i hcls
          cases h
          refine ⟨fun s hs => List.mem_append.mpr (Or.inl hs),
            List.mem_append.mpr (Or.inr (by simp)),
            fun nd hnd => List.mem_append.mpr (Or.inl hnd), ?_, ?_⟩
          · intro nd hnd
            rcases List.mem_append.mp hnd with hnd | hnd
            · exact Or.inl hnd
            · rw [List.mem_singleton] at hnd
              subst hnd
              exact Or.inr hconn
          · intro hi s hs he hc
            rw [List.map_append]
            rcases List.mem_append.mp hs with hs | hs
            · exact List.mem_append.mpr (Or.inl (hi s hs he hc))
            · rw [List.mem_singleton] at hs
              subst hs
              exact List.mem_append.mpr (Or.inr (by simp [hname]))
        · rename_i hcls
          cases h
          refine ⟨fun s hs => List.mem_append.mpr (Or.inl hs),
            List.mem_append.mpr (Or.inr (by simp)),
            fun nd hnd => hnd, fun nd hnd => Or.inl hnd, ?_⟩
          intro hi s hs he hc
          rcases List.mem_append.mp hs with hs | hs
          · exact hi s hs he hc
          · rw [List.mem_singleton] at hs
            subst hs
            rw [hclass] at hcls
            exact absurd hc hcls
    · rename_i helig
      cases h
      refine ⟨fun s hs => List.mem_append.mpr (Or.inl hs),
        List.mem_append.mpr (Or.inr (by simp)), fun nd hnd => hnd,
        fun nd hnd => Or.inl hnd, ?_⟩
      intro hi s hs he hc
      rcases List.mem_append.mp hs with hs | hs
      · exact hi s hs he hc
      · rw [List.mem_singleton] at hs
        subst hs
        exact absurd he helig

theorem closure_conns_fold (conns : List String) :
    ∀ st st' : List String × List Node,
      conns.foldlM closure_step st = .ok st' →
      (∀ s ∈ st.1, s ∈ st'.1) ∧ (∀ r ∈ conns, pyStrip r ∈ st'.1) ∧
      (∀ nd ∈ st.2, nd ∈ st'.2) ∧
      (∀ nd ∈ st'.2, nd ∈ st.2 ∨ nd.connections = []) ∧
      (closure_inv st → closure_inv st') := by
  induction conns with
  | nil =>
    intro st st' h
    simp only [List.foldlM_nil] at h
    cases h
    exact ⟨fun s hs => hs, by simp, fun nd hnd => hnd, fun nd hnd => Or.inl hnd,
      fun hi => hi⟩
  | cons c rest ih =>
    intro st st' h
    simp only [List.foldlM_cons] at h
    cases hstep : closure_step st c with
    | error e => rw [hstep] at h; simp [Bind.bind, Except.bind] at h
    | ok st1 =>
      rw [hstep] at h
      simp only [Bind.bind, Except.bind] at h
      obtain ⟨hs1, hc1, ha1, hm1, hi1⟩ := closure_step_props st st1 c hstep
      obtain ⟨hs2, hc2, ha2, hm2, hi2⟩ := ih st1 st' h
      refine ⟨fun s hs => hs2 s (hs1 s hs), ?_, fun nd hnd => ha2 nd (ha1 nd hnd),
        ?_, fun hi => hi2 (hi1 hi)⟩
      · intro r hr
        rcases List.mem_cons.mp hr with rfl | hr
        · exact hs2 _ hc1
        · exact hc2 r hr
      · intro nd hnd
        rcases hm2 nd hnd with hnd' | hconn
        · exact hm1 nd hnd'
        · exact Or.inr hconn

theorem closure_nodes_fold (ns : List Node) :
    ∀ st st' : List String × List Node,
      ns.foldlM closure_node_step st = .ok st' →
      (∀ s ∈ st.1, s ∈ st'.1) ∧
      (∀ node ∈ ns, ∀ r ∈ node.connections, pyStrip r ∈ st'.1) ∧
      (∀ nd ∈ st.2, nd ∈ st'.2) ∧
      (∀ nd ∈ st'.2, nd ∈ st.2 ∨ nd.connections = []) ∧
      (closure_inv st → closure_inv st') := by
  induction ns with
  | nil =>
    intro st st' h
    simp only [List.foldlM_nil] at h
    cases h
    exact ⟨fun s hs => hs, by simp, fun nd hnd => hnd, fun nd hnd => Or.inl hnd,
      fun hi => hi⟩
  | cons n rest ih =>
    intro st st' h
    simp only [List.foldlM_cons] at h
    cases hstep : closure_node_step st n with
    | error e => rw [hstep] at h; simp [Bind.bind, Except.bind] at h
    | ok st1 =>
      rw [hstep] at h
      simp only [Bind.bind, Except.bind] at h
      obtain ⟨hs1, hc1, ha1, hm1, hi1⟩ := closure_conns_fold n.connections st st1 hstep
      obtain ⟨hs2, hc2, ha2, hm2, hi2⟩ := ih st1 st' h
      refine ⟨fun s hs => hs2 s (hs1 s hs), ?_, fun nd hnd => ha2 nd (ha1 nd hnd),
        ?_, fun hi => hi2 (hi1 hi)⟩
      · intro node hnode r hr
        rcases List.mem_cons.mp hnode with rfl | hnode
        · exact hs2 _ (hc1 r hr)
        · exact hc2 node hnode r hr
      · intro nd hnd
        rcases hm2 nd hnd with hnd' | hconn
        · exact hm1 nd hnd'
        · exact Or.inr hconn

/-- C3 counterexample: a primary node whose connections contain
`<<ClientProgramX>>` (which the reference scanner does emit, since the
program-class check needs no colon) closes without error, yet the key names
no node in the closed set — closure completeness fails. -/
theorem closure_misses_program_key_without_colon :
    create_secondary_nodes [c3CexNode] = .ok [c3CexNode] ∧
    "<<ClientProgramX>>" ∈ c3CexNode.connections ∧
    get_references "x <<ClientProgramX>> y" = ["<<ClientProgramX>>"] ∧
    "<<ClientProgramX>>" ∉ [c3CexNode].map Node.name := by
  refine ⟨rfl, by simp [c3CexNode], rfl, ?_⟩
  simp only [List.map_cons, List.map_nil, List.mem_singleton]
  intro heq
  exact absurd (congrArg (fun s => s.toList.length) heq) (by decide)

/-- C3 (amended): after a successful closure run, every connection key whose
stripped text passes the builder's eligibility check (`<<`…`>>` with a `:`)
and classifies to a recognized class is the name of some node in the closed
set; ineligible or unrecognized keys are dropped without a node, so the
unrestricted completeness invariant does not hold. -/
theorem closure_complete_for_eligible_recognized_keys (nodes res : List Node)
    (h : create_secondary_nodes nodes = .ok res) :
    res.all (fun n => n.connections.all (fun r =>
      !(closure_eligible (pyStrip r) && (classify_item_type (pyStrip r)).isSome) ||
      (res.map Node.name).contains (pyStrip r))) = true := by
  simp only [create_secondary_nodes] at h
  split at h
  · exact absurd h (by simp)
  · rename_i st hfold
    cases h
    obtain ⟨hseen, hconns, hacc, hmem, hinv⟩ := closure_nodes_fold nodes _ _ hfold
    have hInv : closure_inv st := hinv (fun s hs _ _ => hs)
    rw [List.all_eq_true]
    intro n hn
    rw [List.all_eq_true]
    intro r hr
    rw [Bool.or_eq_true]
    rcases hmem n hn with hn' | hconn0
    · cases hel :
        (closure_eligible (pyStrip r) && (classify_item_type (pyStrip r)).isSome) with
      | false => exact Or.inl (by simp [hel])
      | true =>
        obtain ⟨h1, h2⟩ : closure_eligible (pyStrip r) = true ∧
            (classify_item_type (pyStrip r)).isSome = true := by simpa using hel
        exact Or.inr ((contains_eq_true_iff _ _).mpr
          (hInv _ (hconns n hn' r hr) h1 h2))
    · rw [hconn0] at hr
      simp at hr

/-- Witness for the C3 amended theorem: one primary node referencing one
missing incentive, which closure synthesizes. -/
theorem closure_complete_for_eligible_recognized_keys_witness :
    create_secondary_nodes [c3WitNode] = .ok [c3WitNode, c3WitSecondary] ∧
    ([c3WitNode, c3WitSecondary].all (fun n => n.connections.all (fun r =>
      !(closure_eligible (pyStrip r) && (classify_item_type (pyStrip r)).isSome) ||
      ([c3WitNode, c3WitSecondary].map Node.name).contains (pyStrip r)))) = true := by
  refine ⟨rfl, ?_⟩
  exact closure_complete_for_eligible_recognized_keys [c3WitNode]
    [c3WitNode, c3WitSecondary] rfl

/-! C7 -/

theorem strLeListAux_total (as bs : List Char) :
    strLeListAux as bs = true ∨ strLeListAux bs as = true := by
  induction as generalizing bs with
  | nil => exact Or.inl rfl
  | cons x xs ih =>
    cases bs with
    | nil => exact Or.inr rfl
    | cons y ys =>
      simp only [strLeListAux]
      rcases Nat.lt_trichotomy x.toNat y.toNat with h | h | h
      · left
        simp [h]
      · have hxy : ¬ x.toNat < y.toNat := by omega
        have hyx : ¬ y.toNat < x.toNat := by omega
        rcases ih ys with h2 | h2
        · left; simp [hxy, hyx, h2]
        · right; simp [hxy, hyx, h2]
      · right
        simp [h, Nat.lt_asymm h]

theorem strLeListAux_trans (as bs cs : List Char) :
    strLeListAux as bs = true → strLeListAux bs cs = true →
    strLeListAux as cs = true := by
  induction as generalizing bs cs with
  | nil => intro _ _; rfl
  | cons x xs ih =>
    intro h1 h2
    cases bs with
    | nil => exact absurd h1 (by simp [strLeListAux])
    | cons y ys =>
      cases cs with
      | nil => exact absurd h2 (by simp [strLeListAux])
      | cons z zs =>
        simp only [strLeListAux] at h1 h2 ⊢
        rcases Nat.lt_trichotomy x.toNat y.toNat with hxy | hxy | hxy
        · rcases Nat.lt_trichotomy y.toNat z.toNat with hyz | hyz | hyz
          · simp [show x.toNat < z.toNat by omega]
          · simp [show x.toNat < z.toNat by omega]
          · rw [if_neg (by omega), if_pos hyz] at h2
            exact absurd h2 (by simp)
        · rcases Nat.lt_trichotomy y.toNat z.toNat with hyz | hyz | hyz
          · simp [show x.toNat < z.toNat by omega]
          · rw [if_neg (by omega), if_neg (by omega)] at h1 h2
            rw [if_neg (by omega), if_neg (by omega)]
            exact ih ys zs h1 h2
          · rw [if_neg (by omega), if_pos hyz] at h2
            exact absurd h2 (by simp)
        · rw [if_neg (by omega), if_pos hxy] at h1
          exact absurd h1 (by simp)

theorem strLeListAux_antisymm (as bs : List Char) :
    strLeListAux as bs = true → strLeListAux bs as = true → as = bs := by
  induction as generalizing bs with
  | nil =>
    intro _ h2
    cases bs with
    | nil => rfl
    | cons y ys => exact absurd h2 (by simp [strLeListAux])
  | cons x xs ih =>
    intro h1 h2
    cases bs with
    | nil => exact absurd h1 (by simp [strLeListAux])
    | cons y ys =>
      simp only [strLeListAux] at h1 h2
      rcases Nat.lt_trichotomy x.toNat y.toNat with hxy | hxy | hxy
      · rw [if_neg (by omega), if_pos hxy] at h2
        exact absurd h2 (by simp)
      · rw [if_neg (by omega), if_neg (by omega)] at h1 h2
        have hchar : x = y := Char.eq_of_val_eq (by
          apply UInt32.eq_of_val_eq
          apply Fin.eq_of_val_eq
          exact hxy)
        rw [hchar, ih ys h1 h2]
      · rw [if_neg (by omega), if_pos hxy] at h1
        exact absurd h1 (by simp)

theorem string_toList_inj (a b : String) (h : a.toList = b.toList) : a = b := by
  cases a
  cases b
  exact congrArg String.mk (by simpa using h)

instance : IsTotal (String × Json) keyLe :=
  ⟨fun p q => strLeListAux_total p.1.toList q.1.toList⟩

instance : IsTrans (String × Json) keyLe :=
  ⟨fun p q r h1 h2 => strLeListAux_trans p.1.toList q.1.toList r.1.toList h1 h2⟩

theorem keyLe_antisymm_fst {p q : String × Json} (h1 : keyLe p q) (h2 : keyLe q p) :
    p.1 = q.1 :=
  string_toList_inj _ _ (strLeListAux_antisymm _ _ h1 h2)

theorem sorted_keyLe_nodup_ext (l1 : List (String × Json)) :
    ∀ l2 : List (String × Json), l1.Sorted keyLe → l2.Sorted keyLe →
      (l1.map Prod.fst).Nodup → (l2.map Prod.fst).Nodup →
      (∀ p, p ∈ l1 ↔ p ∈ l2) → l1 = l2 := by
  induction l1 with
  | nil =>
    intro l2 _ _ _ _ hmem
    cases l2 with
    | nil => rfl
    | cons b t2 => exact absurd ((hmem b).mpr (by simp)) (by simp)
  | cons a t1 ih =>
    intro l2 s1 s2 n1 n2 hmem
    cases l2 with
    | nil => exact absurd ((hmem a).mp (by simp)) (by simp)
    | cons b t2 =>
      have hab : a = b := by
        have ha2 : a ∈ b :: t2 := (hmem a).mp (List.mem_cons_self _ _)
        have hb1 : b ∈ a :: t1 := (hmem b).mpr (List.mem_cons_self _ _)
        rcases List.mem_cons.mp ha2 with h | ha2t
        · exact h
        rcases List.mem_cons.mp hb1 with h | hb1t
        · exact h.symm
        have hle1 : keyLe a b := (List.sorted_cons.mp s1).1 b hb1t
        have hle2 : keyLe b a := (List.sorted_cons.mp s2).1 a ha2t
        have hk : a.1 = b.1 := keyLe_antisymm_fst hle1 hle2
        have hmem2 : a.1 ∈ t2.map Prod.fst := List.mem_map_of_mem Prod.fst ha2t
        rw [hk] at hmem2
        rw [List.map_cons, List.nodup_cons] at n2
        exact absurd hmem2 n2.1
      subst hab
      have htl : ∀ p, p ∈ t1 ↔ p ∈ t2 := by
        intro p
        constructor
        · intro hp
          rcases List.mem_cons.mp ((hmem p).mp (List.mem_cons_of_mem _ hp)) with h | h
          · subst h
            rw [List.map_cons, List.nodup_cons] at n1
            exact absurd (List.mem_map_of_mem Prod.fst hp) n1.1
          · exact h
        · intro hp
          rcases List.mem_cons.mp ((hmem p).mpr (List.mem_cons_of_mem _ hp)) with h | h
          · subst h
            rw [List.map_cons, List.nodup_cons] at n2
            exact absurd (List.mem_map_of_mem Prod.fst hp) n2.1
          · exact h
      rw [ih t2 (List.sorted_cons.mp s1).2 (List.sorted_cons.mp s2).2
        (by rw [List.map_cons, List.nodup_cons] at n1; exact n1.2)
        (by rw [List.map_cons, List.nodup_cons] at n2; exact n2.2) htl]

theorem truncItems_eq_map (xs : List Json) (d m : Nat) :
    truncItems xs d m = xs.map (fun x => truncate_depth x d m) := by
  induction xs with
  | nil => rfl
  | cons x rest ih => simp only [truncItems, ih, List.map_cons]

theorem truncFields_eq_map (fs : List (String × Json)) (d m : Nat) :
    truncFields fs d m = fs.map (fun kv => (kv.1, truncate_depth kv.2 d m)) := by
  induction fs with
  | nil => rfl
  | cons kv rest ih =>
    obtain ⟨k, v⟩ := kv
    simp only [truncFields, ih, List.map_cons]

theorem map_fst_trunc_map (fs : List (String × Json)) (d m : Nat) :
    (fs.map (fun kv => (kv.1, truncate_depth kv.2 d m))).map Prod.fst
      = fs.map Prod.fst := by
  rw [List.map_map]
  apply List.map_congr_left
  intro p _
  rfl

theorem structEq_truncate {a b : Json} (h : StructEq a b) :
    ∀ d m : Nat, truncate_depth a d m = truncate_depth b d m := by
  induction h with
  | null => intro d m; rfl
  | bool x => intro d m; rfl
  | num x => intro d m; rfl
  | str x => intro d m; rfl
  | arr xs ys hlen hpt ih =>
    intro d m
    by_cases hd : d ≥ m
    · simp [truncate_depth, hd]
    · simp only [truncate_depth, if_neg hd]
      congr 1
      rw [truncItems_eq_map, truncItems_eq_map]
      apply List.ext_getElem (by simp [hlen])
      intro i h1 h2
      simp only [List.getElem_map]
      have := ih i (by simpa using h1) (by simpa using h2) (d + 1) m
      simpa [List.get_eq_getElem] using this
  | obj fs gs hf hg hk hpt ih =>
    intro d m
    by_cases hd : d ≥ m
    · simp [truncate_depth, hd]
    · simp only [truncate_depth, if_neg hd]
      congr 1
      rw [truncFields_eq_map, truncFields_eq_map]
      apply sorted_keyLe_nodup_ext
      · exact List.sorted_insertionSort keyLe _
      · exact List.sorted_insertionSort keyLe _
      · exact (((List.perm_insertionSort keyLe _).map Prod.fst).nodup_iff).mpr
          (by rw [map_fst_trunc_map]; exact hf)
      · exact (((List.perm_insertionSort keyLe _).map Prod.fst).nodup_iff).mpr
          (by rw [map_fst_trunc_map]; exact hg)
      · intro p
        rw [(List.perm_insertionSort keyLe _).mem_iff,
          (List.perm_insertionSort keyLe _).mem_iff]
        constructor
        · intro hp
          obtain ⟨kv, hkv, hFkv⟩ := List.mem_map.mp hp
          obtain ⟨k, v⟩ := kv
          have hkmem : k ∈ gs.map Prod.fst :=
            hk.mem_iff.mp (List.mem_map_of_mem Prod.fst hkv)
          obtain ⟨q, hq, hqk⟩ := List.mem_map.mp hkmem
          obtain ⟨k2, w⟩ := q
          simp only at hqk
          subst hqk
          have heq := ih k2 v w hkv hq (d + 1) m
          rw [List.mem_map]
          refine ⟨(k2, w), hq, ?_⟩
          rw [← hFkv]
          simp [heq]
        · intro hp
          obtain ⟨kv, hkv, hFkv⟩ := List.mem_map.mp hp
          obtain ⟨k, w⟩ := kv
          have hkmem : k ∈ fs.map Prod.fst :=
            hk.symm.mem_iff.mp (List.mem_map_of_mem Prod.fst hkv)
          obtain ⟨q, hq, hqk⟩ := List.mem_map.mp hkmem
          obtain ⟨k2, v⟩ := q
          simp only at hqk
          subst hqk
          have heq := ih k2 v w hq hkv (d + 1) m
          rw [List.mem_map]
          refine ⟨(k2, v), hq, ?_⟩
          rw [← hFkv]
          simp [heq]

/-- C7: canonicalization (depth-truncation with sorted object keys followed
by 2-space-indented serialization) maps structurally identical JSON values —
same nested keys and values regardless of object key order — to byte-identical
text, and re-canonicalizing the same value yields identical text. -/
theorem canonicalization_key_order_independent (a b : Json) (h : StructEq a b) :
    canonical_text a = canonical_text b ∧ canonical_text b = canonical_text b := by
  constructor
  · simp only [canonical_text]
    rw [structEq_truncate h 0 10]
  · rfl

/-- Witness for C7 at two objects whose keys are supplied in different
orders. -/
theorem canonicalization_key_order_independent_witness :
    StructEq c7A c7B ∧ canonical_text c7A = canonical_text c7B := by
  have hinner : StructEq (Json.obj [("d", Json.null), ("c", Json.bool true)])
      (Json.obj [("c", Json.bool true), ("d", Json.null)]) := by
    apply StructEq.obj
    · decide
    · decide
    · exact List.Perm.swap "c" "d" []
    · intro k v w hv hw
      simp only [List.mem_cons, List.mem_singleton, Prod.mk.injEq] at hv hw
      rcases hv with ⟨hk1, hv1⟩ | ⟨hk1, hv1⟩ <;> rcases hw with ⟨hk2, hw1⟩ | ⟨hk2, hw1⟩ <;>
        subst_vars <;> first
        | exact StructEq.null
        | exact StructEq.bool true
        | simp_all
  have hse : StructEq c7A c7B := by
    apply StructEq.obj
    · decide
    · decide
    · exact List.Perm.swap "a" "b" []
    · intro k v w hv hw
      simp only [c7A, c7B, List.mem_cons, List.mem_singleton, Prod.mk.injEq] at hv hw
      rcases hv with ⟨hk1, hv1⟩ | ⟨hk1, hv1⟩ <;> rcases hw with ⟨hk2, hw1⟩ | ⟨hk2, hw1⟩ <;>
        subst_vars <;> first
        | exact StructEq.num 1
        | exact hinner
        | simp_all
  exact ⟨hse, (canonicalization_key_order_independent c7A c7B hse).1⟩

/-- Witness for C10 on a one-item snapshot whose item references one other
key. -/
theorem connections_scan_filter_dedup_no_self_witness :
    find_nodes [Json.arr [c10Item]] = .ok [c10Node] ∧
    c10Node.raw.isSome = true ∧
    c10Node.connections
      = (get_references (pyRepr (c10Node.raw.getD Json.null))).filter
          (fun r => r != c10Node.name) ∧
    c10Node.connections.Nodup ∧
    c10Node.connections.all (fun r => (classify_item_type r).isSome) = true ∧
    c10Node.name ∉ c10Node.connections := by
  refine ⟨rfl, ?_⟩
  exact connections_scan_filter_dedup_no_self [Json.arr [c10Item]] [c10Node] c10Node rfl
    (List.mem_singleton.mpr rfl)

end MHC
